import Mathlib

/-
  Verification of the mesh boolean pipeline in
  src/CombineModels/Logic/vtkPolyDataBooleanFilter.cxx (SlicerSandbox CombineModels).

  The definitions below are shallow embeddings of the relevant C++ routines.
  Machine doubles are modelled by ℚ where arithmetic matters; the snapped
  Point3d coordinates (class Point3d of Utilities.h, which is not part of the
  given sources) are modelled as integer-scaled coordinates with decidable
  equality, following the spec's "compared by a tolerance of 1e-5".
-/

namespace CombineModels

/-- Modelled from the spec: Point3d (Utilities.h is not under src/): a snapped
3-D coordinate with decidable equality, spec section 3 "Compared by a tolerance
of 1e-5"; we model the snapped value directly as an integer triple. -/
abbrev Point3d := ℤ × ℤ × ℤ

/-- Modelled from the spec: the capture class of a StripPoint,
spec section 3: capt ∈ \x7bNone, A, B, Edge, Branched\x7d (the enum lives in a
header that is not under src/). `Not` is the source's name for the spec's
`None`. -/
inductive Capt where
  | Not
  | Edge
  | A
  | B
  | Branched
deriving DecidableEq, Repr

/-- Bit test `capt & Capt::Boundary` of the source, where
`Boundary = Edge|A|B`. -/
def Capt.isBoundary : Capt → Bool
  | .Edge => true
  | .A => true
  | .B => true
  | _ => false

/-- Bit test `capt & Capt::A`. -/
def Capt.isA : Capt → Bool
  | .A => true
  | _ => false

/-- Bit test `capt & Capt::B`. -/
def Capt.isB : Capt → Bool
  | .B => true
  | _ => false

/-- StripPt (vtkPolyDataBooleanFilter.h): one contact-curve endpoint localised
against a polygon. Only the fields used by the verified routines are kept:
`ind` (contact-curve point id), `pt` (raw coordinate), `cutPt` (snapped
coordinate used for cutting) and `capt`. -/
structure StripPt where
  ind : ℤ
  pt : Point3d := (0, 0, 0)
  cutPt : Point3d := (0, 0, 0)
  capt : Capt := .Not
deriving DecidableEq, Repr

/-- StripPtR (vtkPolyDataBooleanFilter.h): a strip element referencing a
StripPt by `ind`; `strip` is the owning strip id. -/
structure StripPtR where
  ind : ℤ
  strip : ℕ := 0
deriving DecidableEq, Repr

/-- StripType: a strip is an ordered sequence of StripPtR. -/
abbrev StripType := List StripPtR

/-- Association-list lookup used to model `std::map` access. -/
def alookup {κ α : Type} [DecidableEq κ] (l : List (κ × α)) (k : κ) : Option α :=
  match l with
  | [] => none
  | (k₀, v) :: rest => if k₀ = k then some v else alookup rest k

/-- `pts[ind].capt` on a `std::map<vtkIdType, StripPt>`: `operator[]`
default-constructs a StripPt (capt = Capt::Not) when the key is absent. -/
def captAt (pts : List (ℤ × StripPt)) (ind : ℤ) : Capt :=
  ((alookup pts ind).map StripPt.capt).getD .Not

/- ------------------------------------------------------------------
   C1: the duplicate-cutPt guard of GetPolyStrips
   (vtkPolyDataBooleanFilter.cxx lines 590-627).

   The C++ is
     std::map<Point3d, std::set<vtkIdType>> collapsed;
     ...
     auto inds = collapsed[\x7bsp.cutPt[0], sp.cutPt[1], sp.cutPt[2]\x7d];
     inds.emplace(sp.ind);
     if (inds.size() > 1) \x7b return true; \x7d

   `auto inds` (without &) copies the stored set; `emplace` mutates the
   copy only, and `operator[]` leaves an empty set in the map. The embedding
   reproduces exactly that: the per-coordinate stored set is looked up (an
   empty set is inserted on a miss), the insertion happens on a copy, and the
   map is never updated with the enlarged set.
   ------------------------------------------------------------------ -/

/-- One iteration of the collapsed-cutPt scan: state is the `collapsed` map
(modelled as an association list from coordinates to stored sets) plus the
result flag. Mirrors the copy in `auto inds = collapsed[...]`. -/
def collapsedStep (st : List (Point3d × List ℤ) × Bool) (sp : StripPt) :
    List (Point3d × List ℤ) × Bool :=
  if st.2 then st
  else if sp.capt.isBoundary then
    let m := st.1
    let stored : List ℤ :=
      match alookup m sp.cutPt with
      | some s => s
      | none => []
    -- operator[] inserts a default (empty) set when the key is missing
    let m' : List (Point3d × List ℤ) :=
      match alookup m sp.cutPt with
      | some _ => m
      | none => m ++ [(sp.cutPt, [])]
    -- the copied set receives the emplace; the map keeps `m'` unchanged
    let inds : List ℤ := if sp.ind ∈ stored then stored else sp.ind :: stored
    (m', decide (inds.length > 1))
  else st

/-- The whole scan over every boundary-captured StripPt of every polygon
(the outer two loops of lines 600-620 flattened into one list); returns the
value GetPolyStrips would return from this block. -/
def collapsedCheck (pts : List StripPt) : Bool :=
  (pts.foldl collapsedStep ([], false)).2

/- ------------------------------------------------------------------
   C2: HasArea (vtkPolyDataBooleanFilter.cxx lines 859-871).

   bool area = true;
   std::size_t i, n = strip.size();
   if (n%2 == 1) \x7b
       for (i = 0; i < (n-1)/2; i++) \x7b
           area = strip[i].ind != strip[n-i-1].ind;
       \x7d
   \x7d
   return area;

   Note that `area` is overwritten, not conjoined: only the final loop
   iteration decides the result.
   ------------------------------------------------------------------ -/

def dfltR : StripPtR := {ind := 0}

/-- HasArea, transcribed with the overwriting assignment kept as a fold whose
accumulator is replaced at every step. -/
def HasArea (strip : StripType) : Bool :=
  let n := strip.length
  if n % 2 = 1 then
    (List.range ((n - 1) / 2)).foldl
      (fun _ i => decide ((strip.getD i dfltR).ind ≠ (strip.getD (n - i - 1) dfltR).ind))
      true
  else true

/- ------------------------------------------------------------------
   CleanStrips (vtkPolyDataBooleanFilter.cxx lines 873-966) for C7 and C8.
   ------------------------------------------------------------------ -/

/-- A cell of the contact curve `contLines`: an undirected line between the
contact-curve point ids `a` and `b`; `deleted` models
`GetCellType(i) == VTK_EMPTY_CELL` after `DeleteCell`. -/
structure LineCell where
  a : ℤ
  b : ℤ
  deleted : Bool := false
deriving DecidableEq, Repr

/-- PStrips (vtkPolyDataBooleanFilter.h): the polygon-local bundle — the
polygon's ring of mesh point ids, the map ind → StripPt, and the strips. -/
structure PStrips where
  poly : List ℕ := []
  pts : List (ℤ × StripPt) := []
  strips : List StripType := []

/-- The hole test of FindHoles (lines 888-891): both strip endpoints have
capture `Not` and the strip has no area. (The C++ reads the map with `at`;
`captAt` returns the accurate capture for every ind present in the map.) -/
def isHole (pts : List (ℤ × StripPt)) (strip : StripType) : Bool :=
  captAt pts ((strip.headD dfltR).ind) = .Not &&
  captAt pts ((strip.getLastD dfltR).ind) = .Not &&
  !HasArea strip

/-- Point ids collected into the drop set `inds` by FindHoles: every point of
every hole strip. -/
def holeInds (ps : List PStrips) : List ℤ :=
  ps.foldl (fun acc p =>
    acc ++ (p.strips.filter (isHole p.pts)).foldl (fun a s => a ++ s.map StripPtR.ind) []) []

/-- FindHoles erases the hole strips from the bundle (lines 888-901). -/
def removeHoles (p : PStrips) : PStrips :=
  {p with strips := p.strips.filter (fun s => !isHole p.pts s)}

/-- CleanOther erases every strip containing a dropped point (lines 916-932). -/
def cleanOther (inds : List ℤ) (p : PStrips) : PStrips :=
  {p with strips := p.strips.filter (fun s => !s.any (fun r => r.ind ∈ inds))}

/-- The drop set accumulated over both meshes (FindHoles on polyStripsA then
polyStripsB). -/
def dropInds (psA psB : List PStrips) : List ℤ :=
  holeInds psA ++ holeInds psB

/-- CleanStrips: removes hole strips, removes strips touching a dropped point,
deletes every contact-curve cell incident to a dropped point (lines 941-948),
and returns true iff every cell of the contact curve is now deleted
(lines 950-964: the count of VTK_EMPTY_CELL cells equals the cell count). -/
def CleanStrips (psA psB : List PStrips) (cells : List LineCell) :
    (List PStrips × List PStrips × List LineCell) × Bool :=
  let inds := dropInds psA psB
  let psA2 := (psA.map removeHoles).map (cleanOther inds)
  let psB2 := (psB.map removeHoles).map (cleanOther inds)
  let cells2 := cells.map (fun c =>
    if c.a ∈ inds ∨ c.b ∈ inds then {c with deleted := true} else c)
  ((psA2, psB2, cells2), decide (cells2.countP (fun c => c.deleted) = cells2.length))

/-- Degree of a contact-curve point among the non-deleted cells, as
`GetPointCells` reports it after deletions (used by the RequestData check at
lines 163-172 and by spec section 8 property 3). -/
def degree (cells : List LineCell) (p : ℤ) : ℕ :=
  cells.countP (fun c => !c.deleted && (c.a = p || c.b = p))

/- ------------------------------------------------------------------
   CutCells (vtkPolyDataBooleanFilter.cxx lines 1036-1803) for C5 and C6:
   the coincident-boundary shortcut (lines 1058-1087) and the
   both-branched failure shortcut (lines 1106-1112).
   ------------------------------------------------------------------ -/

def dfltPt : Point3d := (0, 0, 0)

/-- A mesh polygon cell: its ring of point ids and the deleted flag. -/
structure MeshCell where
  ids : List ℕ
  deleted : Bool := false
deriving DecidableEq, Repr

def dfltCell : MeshCell := {ids := []}

/-- The editable mesh (vtkPolyData wrapper): point array, cell array and the
per-cell OrigCellIds attribute. -/
structure Mesh where
  pts : List Point3d
  cells : List MeshCell
  origCellIds : List ℤ
deriving DecidableEq, Repr

/-- The guard of the coincident-boundary shortcut (lines 1058-1072): every
StripPt is captured A or B (`capt & Capt::A || capt & Capt::B`), and the set
of polygon ring coordinates equals the set of snapped cutPt coordinates
(`std::set<Point3d>` comparison). -/
def cutShortcutCond (m : Mesh) (p : PStrips) : Bool :=
  p.pts.all (fun q => q.2.capt.isA || q.2.capt.isB) &&
  decide ((p.poly.map (fun id => m.pts.getD id dfltPt)).toFinset
    = (p.pts.map (fun q => q.2.cutPt)).toFinset)

/-- The action of the shortcut (lines 1073-1086): the ring coordinates are
re-inserted as fresh points, one new cell over those fresh ids is appended
together with the polygon's OrigCellId, and the original cell is marked
deleted. -/
def cutShortcutApply (m : Mesh) (polyInd : ℕ) (p : PStrips) : Mesh :=
  let ringPts := p.poly.map (fun id => m.pts.getD id dfltPt)
  let newCell : MeshCell :=
    {ids := (List.range ringPts.length).map (fun i => i + m.pts.length)}
  { pts := m.pts ++ ringPts,
    cells := (m.cells ++ [newCell]).set polyInd
      {(m.cells.getD polyInd dfltCell) with deleted := true},
    origCellIds := m.origCellIds ++ [m.origCellIds.getD polyInd 0] }

/-- Whether the polygon's processing makes CutCells return true (failure).
After the shortcut `continue` (no failure possible) the both-branched check
(lines 1108-1112) fires; otherwise the only remaining `return true` is the
hole merger (lines 1788-1794), whose implementation is not under src/ and is
abstracted by the predicate `mergerFails`. -/
def polyFails (mergerFails : PStrips → Bool) (m : Mesh) (p : PStrips) : Bool :=
  if cutShortcutCond m p then false
  else if p.strips.any (fun s =>
      captAt p.pts ((s.headD dfltR).ind) = .Branched &&
      captAt p.pts ((s.getLastD dfltR).ind) = .Branched) then true
  else
    let holes := p.strips.filter (fun s =>
      captAt p.pts ((s.headD dfltR).ind) = .Not &&
      captAt p.pts ((s.getLastD dfltR).ind) = .Not)
    if holes.isEmpty then false else mergerFails p

/-- The branch CutCells takes for one polygon when the shortcut guard holds
(lines 1058-1087): `some` of the updated mesh; `none` means the guard failed
and the polygon goes through the general cutting instead. -/
def cutCellsStep (m : Mesh) (polyInd : ℕ) (p : PStrips) : Option Mesh :=
  if cutShortcutCond m p then some (cutShortcutApply m polyInd p) else none

/-- The return value of CutCells: true iff some contacted polygon fails.
`mergerFails` — Modelled from the spec: the hole merger (section 4.10,
implementation not under src/) may propagate a cut failure; it is kept
abstract. Within the loop points are only appended, so each polygon's ring
coordinates are read against the entry mesh. -/
def CutCells (mergerFails : PStrips → Bool) (m : Mesh) (polys : List PStrips) : Bool :=
  polys.any (polyFails mergerFails m)

/- ------------------------------------------------------------------
   The dihedral classifier (lines 2433-2565) for C3, and the region
   selection of CombineRegions (lines 2849-2896) for C4.
   ------------------------------------------------------------------ -/

/-- Loc: the classification of a polygon half-space at a contact edge. -/
inductive Loc where
  | None
  | Inside
  | Outside
deriving DecidableEq, Repr

/-- Congr (lines 2433-2437). -/
inductive Congr where
  | Equal
  | Opposite
  | Not
deriving DecidableEq, Repr

/-- The operator modes OPER_UNION, OPER_INTERSECTION, OPER_DIFFERENCE,
OPER_DIFFERENCE2, OPER_NONE. -/
inductive OperMode where
  | Union
  | Intersection
  | Difference
  | Difference2
  | None
deriving DecidableEq, Repr

/-- IEEE doubles of the classifier are modelled by ℚ. -/
abbrev Vec3 := ℚ × ℚ × ℚ

def dot (u v : Vec3) : ℚ := u.1 * v.1 + u.2.1 * v.2.1 + u.2.2 * v.2.2

/-- `PolyAtEdge::eps = .99999999`. -/
def congrEps : ℚ := 99999999 / 100000000

/-- PolyAtEdge (lines 2439-2495): the directed edge `e`, polygon normal `n`,
and `r = e × n` (computed in the constructor; carried here as a field), plus
the mutable classification `loc`. -/
structure PolyAtEdge where
  n : Vec3
  e : Vec3
  r : Vec3
  loc : Loc := .None
deriving DecidableEq, Repr

/-- PolyAtEdge::IsCongruent (lines 2476-2493). -/
def IsCongruent (p q : PolyAtEdge) : Congr :=
  let cong := dot p.n q.n
  if cong > congrEps ∨ cong < -congrEps then
    if dot p.r q.r > congrEps then
      if cong > congrEps then Congr.Equal else Congr.Opposite
    else Congr.Not
  else Congr.Not

/-- PolyPair (lines 2498-2502): the two reference polygons at a contact edge. -/
structure PolyPair where
  pA : PolyAtEdge
  pB : PolyAtEdge
deriving DecidableEq, Repr

/-- PolyPair::GetLoc (lines 2504-2563), returning the updated pair and the
updated candidate. `getAngle` — Modelled from the spec: GetAngle (Utilities,
not under src/) yields the angle between two vectors about the axis; it is
kept as a parameter, so every statement below holds for every angle
function. -/
def GetLoc (getAngle : Vec3 → Vec3 → Vec3 → ℚ) (pp : PolyPair) (pT : PolyAtEdge)
    (mode : OperMode) : PolyPair × PolyAtEdge :=
  let cA := IsCongruent pp.pA pT
  let cB := IsCongruent pp.pB pT
  if cA = Congr.Equal ∨ cA = Congr.Opposite then
    if cA = Congr.Opposite then
      if mode = OperMode.Intersection then
        ({pp with pA := {pp.pA with loc := Loc.Outside}}, {pT with loc := Loc.Outside})
      else
        ({pp with pA := {pp.pA with loc := Loc.Inside}}, {pT with loc := Loc.Inside})
    else if mode = OperMode.Union ∨ mode = OperMode.Intersection then
      ({pp with pA := {pp.pA with loc := Loc.Inside}}, {pT with loc := Loc.Outside})
    else (pp, pT)
  else if cB = Congr.Equal ∨ cB = Congr.Opposite then
    if cB = Congr.Opposite then
      if mode = OperMode.Intersection then
        ({pp with pB := {pp.pB with loc := Loc.Outside}}, {pT with loc := Loc.Outside})
      else
        ({pp with pB := {pp.pB with loc := Loc.Inside}}, {pT with loc := Loc.Inside})
    else if mode = OperMode.Union ∨ mode = OperMode.Intersection then
      ({pp with pB := {pp.pB with loc := Loc.Inside}}, {pT with loc := Loc.Outside})
    else (pp, pT)
  else
    let alpha := getAngle pp.pA.r pp.pB.r pp.pA.e
    let beta := getAngle pp.pA.r pT.r pp.pA.e
    if beta > alpha then (pp, {pT with loc := Loc.Inside})
    else (pp, {pT with loc := Loc.Outside})

/-- The target label pair `comb` of CombineRegions (lines 2849-2858):
comb[0] for mesh A, comb[1] for mesh B. -/
def comb (mode : OperMode) : Loc × Loc :=
  if mode = OperMode.Intersection then (Loc.Inside, Loc.Inside)
  else if mode = OperMode.Difference then (Loc.Outside, Loc.Inside)
  else if mode = OperMode.Difference2 then (Loc.Inside, Loc.Outside)
  else (Loc.Outside, Loc.Outside)

/-- Whether region `r` of mesh A is passed to the connectivity filter
(lines 2868-2872 select regions whose observed label equals comb[0];
lines 2882-2888 additionally select the never-observed regions under UNION
and DIFFERENCE). `locsA` is the map region → observed label; `numA` the
number of extracted regions. -/
def selectedA (mode : OperMode) (locsA : List (ℤ × Loc)) (numA : ℤ) (r : ℤ) : Bool :=
  match alookup locsA r with
  | some l => decide (l = (comb mode).1)
  | none =>
      (mode = OperMode.Union || mode = OperMode.Difference) && (0 ≤ r) && (r < numA)

/-- Whether region `r` of mesh B is selected (lines 2874-2878 and
2890-2896: unseen regions are added under UNION and DIFFERENCE2). -/
def selectedB (mode : OperMode) (locsB : List (ℤ × Loc)) (numB : ℤ) (r : ℤ) : Bool :=
  match alookup locsB r with
  | some l => decide (l = (comb mode).2)
  | none =>
      (mode = OperMode.Union || mode = OperMode.Difference2) && (0 ≤ r) && (r < numB)

/- ------------------------------------------------------------------
   MergePoints (lines 2255-2431) for C9: the pair-linking and group
   collapse at one strip-endpoint contact point.
   ------------------------------------------------------------------ -/

/-- Pair (Utilities): here a (cell id, point id) pair as used by MergePoints. -/
abbrev IdPair := ℤ × ℤ

def dfltPair : IdPair := (0, 0)

/-- The links built from the per-coordinate pair lists (lines 2360-2371):
only a coordinate shared by exactly two (polygon, point) pairs yields a link
(`if (p.size() == 2)`). -/
def buildPairLinks (pairs : List (Point3d × List IdPair)) : List (IdPair × IdPair) :=
  pairs.filterMap (fun q =>
    if q.2.length = 2 then some (q.2.headD dfltPair, q.2.getLastD dfltPair) else none)

/-- One scan of the inner merging loop (lines 2392-2416): the first link
sharing an end with the group's front or back is consumed and its other pair
attached on the matching side. -/
def groupFind (group : List IdPair) :
    List (IdPair × IdPair) → Option (List IdPair × List (IdPair × IdPair))
  | [] => none
  | l :: rest =>
    if l.1 = group.headD dfltPair then some (l.2 :: group, rest)
    else if l.1 = group.getLastD dfltPair then some (group ++ [l.2], rest)
    else if l.2 = group.headD dfltPair then some (l.1 :: group, rest)
    else if l.2 = group.getLastD dfltPair then some (group ++ [l.1], rest)
    else (groupFind group rest).map (fun q => (q.1, l :: q.2))

/-- The merging loop run to its fixpoint; each successful scan consumes one
link, so `fuel` bounds the iteration count. -/
def groupGrow : ℕ → List IdPair → List (IdPair × IdPair) →
    List IdPair × List (IdPair × IdPair)
  | 0, g, ls => (g, ls)
  | fuel + 1, g, ls =>
    match groupFind g ls with
    | none => (g, ls)
    | some (g2, ls2) => groupGrow fuel g2 ls2

/-- The outer loop (lines 2386-2425): pull the front link as a two-element
group, merge until no link attaches, emit, repeat. -/
def buildGroups : ℕ → List (IdPair × IdPair) → List (List IdPair)
  | 0, _ => []
  | _, [] => []
  | fuel + 1, l :: rest =>
    let q := groupGrow rest.length [l.1, l.2] rest
    q.1 :: buildGroups fuel q.2

/-- The groups MergePoints forms at one contact point from the
per-neighbour-coordinate pair lists. -/
def MergePointsGroups (pairs : List (Point3d × List IdPair)) : List (List IdPair) :=
  let links := buildPairLinks pairs
  buildGroups (links.length + 1) links

/-- The `ReplaceCellPoint` rewrites emitted at lines 2418-2424: every group
member except the representative (the group's front) is rewritten, in its
cell, to the representative's point id. An element ((cell, old), new) stands
for `ReplaceCellPoint(cell, old, new)`. -/
def MergePointsRewrites (pairs : List (Point3d × List IdPair)) : List (IdPair × ℤ) :=
  (MergePointsGroups pairs).foldl (fun acc g =>
    acc ++ (g.drop 1).map (fun p => (p, (g.headD dfltPair).2))) []

/- ------------------------------------------------------------------
   RemoveDuplicates (lines 801-836) for C10.
   ------------------------------------------------------------------ -/

/-- A contact line as RemoveDuplicates sees it: (cell id, endpoint a,
endpoint b) — the tuple `LineType` of line 803. -/
abbrev LineT := ℤ × ℤ × ℤ

/-- The find_if predicate of lines 818-821: the two lines join the same two
contact-curve points, in either order. -/
def samePair (x y : LineT) : Bool :=
  (x.2.1 = y.2.1 && x.2.2 = y.2.2) || (x.2.1 = y.2.2 && x.2.2 = y.2.1)

/-- The filling loop of lines 812-824: a line is appended iff no earlier kept
line joins the same two points. -/
def rdGo (acc : List LineT) : List LineT → List LineT
  | [] => acc
  | l :: rest => if acc.any (fun x => samePair x l) then rdGo acc rest else rdGo (acc ++ [l]) rest

/-- RemoveDuplicates: the deduplicated list (the C++ then writes the kept ids
back into `lines` when anything was dropped; the kept lines are `_lines`
either way). -/
def RemoveDuplicates (lines : List LineT) : List LineT :=
  rdGo [] lines

/-- The unordered endpoint pair of a line (used only in statements). -/
def upair (x : LineT) : ℤ × ℤ :=
  if x.2.1 ≤ x.2.2 then (x.2.1, x.2.2) else (x.2.2, x.2.1)

/- ------------------------------------------------------------------
   A concrete contact-curve configuration: cells 2-3, 1-2, 0-1, 3-4, 0-4,
   where the single line 2-3 is an isolated interior strip which
   CompleteStrips doubles to [3, 2, 3] — a zero-area hole. Dropping its
   points deletes cells 2-3, 1-2 and 3-4; the line 0-1 survives, with
   endpoint 1 of degree 1.
   ------------------------------------------------------------------ -/

def cexCells : List LineCell :=
  [⟨2, 3, false⟩, ⟨1, 2, false⟩, ⟨0, 1, false⟩, ⟨3, 4, false⟩, ⟨0, 4, false⟩]

def cexBundle1 : PStrips :=
  { pts := [(2, {ind := 2, capt := .Not}), (3, {ind := 3, capt := .Not})],
    strips := [[{ind := 3}, {ind := 2}, {ind := 3}]] }

def cexBundle2 : PStrips :=
  { pts := [(0, {ind := 0, capt := .Edge}), (1, {ind := 1, capt := .Not}),
      (2, {ind := 2, capt := .Edge})],
    strips := [[{ind := 0}, {ind := 1}, {ind := 2}]] }

def cexBundle3 : PStrips :=
  { pts := [(3, {ind := 3, capt := .Edge}), (4, {ind := 4, capt := .Not}),
      (0, {ind := 0, capt := .Edge})],
    strips := [[{ind := 3}, {ind := 4}, {ind := 0}]] }

/-- Strip bundles of mesh A for the configuration above. -/
def cexPsA : List PStrips := [cexBundle1, cexBundle2, cexBundle3]

/-- Strip bundles of mesh B (the same chain structure seen from B). -/
def cexPsB : List PStrips := [cexBundle1, cexBundle2, cexBundle3]

/-- A polygon bundle with a single strip whose two endpoints are both
Branched (used to exercise the CutCells failure shortcut). -/
def bothBranchedBundle : PStrips :=
  { pts := [(0, {ind := 0, capt := .Branched}), (1, {ind := 1, capt := .Branched})],
    strips := [[{ind := 0}, {ind := 1}]] }

/-- A unit square mesh with one cell (used to exercise the coincident
boundary shortcut). -/
def squareMesh : Mesh :=
  { pts := [(0, 0, 0), (1, 0, 0), (1, 1, 0), (0, 1, 0)],
    cells := [{ids := [0, 1, 2, 3]}],
    origCellIds := [7] }

/-- The square's bundle: four StripPoints captured A whose cutPts are the
four corners. -/
def squareBundle : PStrips :=
  { poly := [0, 1, 2, 3],
    pts := [(10, {ind := 10, capt := .A, cutPt := (0, 0, 0)}),
      (11, {ind := 11, capt := .A, cutPt := (1, 0, 0)}),
      (12, {ind := 12, capt := .A, cutPt := (1, 1, 0)}),
      (13, {ind := 13, capt := .A, cutPt := (0, 1, 0)})] }

/-- A reference pair whose polygon normals are the x and y unit vectors
(used to exercise the dihedral angle rule; the candidate below is congruent
to neither). -/
def refPair : PolyPair :=
  { pA := {n := (1, 0, 0), e := (0, 0, 1), r := (0, 1, 0)},
    pB := {n := (0, 1, 0), e := (0, 0, 1), r := (1, 0, 0)} }

/-- A candidate polygon with normal z, congruent to neither reference. -/
def candT : PolyAtEdge := {n := (0, 0, 1), e := (0, 0, 1), r := (0, 0, 1)}

/-- A strip-endpoint contact point where one neighbour coordinate is shared
by three (polygon, point) pairs (used against MergePoints, whose linking
demands `p.size() == 2`). -/
def triplePairs : List (Point3d × List IdPair) :=
  [((5, 5, 5), [(1, 10), (2, 11), (3, 12)])]

/- ==================================================================
   Theorems
   ================================================================== -/

theorem alookup_mem {κ α : Type} [DecidableEq κ] {l : List (κ × α)} {k : κ} {v : α}
    (h : alookup l k = some v) : (k, v) ∈ l := by
  induction l with
  | nil => simp [alookup] at h
  | cons hd tl ih =>
    obtain ⟨k₀, v₀⟩ := hd
    rw [alookup] at h
    by_cases hk : k₀ = k
    · subst hk
      simp at h
      subst h
      exact List.mem_cons_self _ _
    · simp [hk] at h
      exact List.mem_cons_of_mem _ (ih h)

theorem collapsedStep_inv {m : List (Point3d × List ℤ)}
    (hm : ∀ q ∈ m, q.2 = ([] : List ℤ)) (sp : StripPt) :
    (collapsedStep (m, false) sp).2 = false ∧
    ∀ q ∈ (collapsedStep (m, false) sp).1, q.2 = ([] : List ℤ) := by
  unfold collapsedStep
  simp only []
  by_cases hb : sp.capt.isBoundary
  · have hstored : (match alookup m sp.cutPt with
        | some s => s
        | none => ([] : List ℤ)) = [] := by
      cases h : alookup m sp.cutPt with
      | none => simp
      | some s => simpa using hm _ (alookup_mem h)
    simp only [hb, if_true, if_false, Bool.false_eq_true]
    rw [hstored]
    constructor
    · simp
    · cases h : alookup m sp.cutPt with
      | none =>
        simp only [h]
        intro q hq
        rcases List.mem_append.mp hq with h1 | h1
        · exact hm _ h1
        · simp at h1; simp [h1]
      | some s =>
        simp only [h]
        intro q hq
        exact hm q hq
  · simp [hb]
    intro a b c d hq
    exact hm ((a, b, c), d) hq

theorem collapsedCheck_aux (pts : List StripPt) (m : List (Point3d × List ℤ))
    (hm : ∀ q ∈ m, q.2 = ([] : List ℤ)) :
    (pts.foldl collapsedStep (m, false)).2 = false := by
  induction pts generalizing m with
  | nil => simp
  | cons sp rest ih =>
    obtain ⟨h1, h2⟩ := collapsedStep_inv hm sp
    rcases hstep : collapsedStep (m, false) sp with ⟨m2, b2⟩
    rw [hstep] at h1 h2
    simp only at h1 h2
    subst h1
    rw [List.foldl_cons, hstep]
    exact ih _ h2

/-- C1: the claim says that two distinct boundary-captured StripPoints of one
polygon sharing their snapped cutPt make GetPolyStrips return true ('Strips
are invalid.'). The guard meant to detect this (lines 590-627) copies the
stored set (`auto inds = collapsed[...]`, missing `&`), so the enlarged set is
discarded and the scan can never report a collision: it returns false on
every input, in particular on inputs with such a duplicate pair. -/
theorem c1_collapsed_guard_never_fires (pts : List StripPt) :
    collapsedCheck pts = false := by
  unfold collapsedCheck
  exact collapsedCheck_aux pts [] (by simp)

/-- C1, concrete failing input: two boundary-captured points with distinct
inds and the same snapped coordinate pass the guard without an abort. -/
theorem c1_failing_input :
    (StripPt.mk 0 (0, 0, 0) (1, 2, 3) Capt.A).ind ≠
      (StripPt.mk 1 (0, 0, 0) (1, 2, 3) Capt.A).ind ∧
    (StripPt.mk 0 (0, 0, 0) (1, 2, 3) Capt.A).capt.isBoundary = true ∧
    (StripPt.mk 1 (0, 0, 0) (1, 2, 3) Capt.A).capt.isBoundary = true ∧
    (StripPt.mk 0 (0, 0, 0) (1, 2, 3) Capt.A).cutPt =
      (StripPt.mk 1 (0, 0, 0) (1, 2, 3) Capt.A).cutPt ∧
    collapsedCheck [StripPt.mk 0 (0, 0, 0) (1, 2, 3) Capt.A,
      StripPt.mk 1 (0, 0, 0) (1, 2, 3) Capt.A] = false := by
  refine ⟨by decide, rfl, rfl, rfl, c1_collapsed_guard_never_fires _⟩

theorem foldl_range_lastOnly (g : ℕ → Bool) (a : Bool) :
    ∀ m : ℕ, m ≠ 0 → (List.range m).foldl (fun _ i => g i) a = g (m - 1) := by
  intro m
  induction m generalizing a with
  | zero => intro h; exact absurd rfl h
  | succ k ih =>
    intro _
    rw [List.range_succ, List.foldl_append]
    simp

/-- C2, counterexample: the strip with contact indices [1, 2, 3, 2, 5] has odd
length and is not a palindrome of indices, yet HasArea is false — only the
loop's final comparison (here strip[1] vs strip[3]) survives the overwriting
assignment `area = ...` at line 866. -/
theorem c2_hasArea_palindrome_cex :
    HasArea [StripPtR.mk 1 0, StripPtR.mk 2 0, StripPtR.mk 3 0,
      StripPtR.mk 2 0, StripPtR.mk 5 0] = false ∧
    ([StripPtR.mk 1 0, StripPtR.mk 2 0, StripPtR.mk 3 0,
      StripPtR.mk 2 0, StripPtR.mk 5 0].length % 2 = 1) ∧
    ¬ (∀ i < 5, ([StripPtR.mk 1 0, StripPtR.mk 2 0, StripPtR.mk 3 0,
      StripPtR.mk 2 0, StripPtR.mk 5 0].getD i dfltR).ind =
        ([StripPtR.mk 1 0, StripPtR.mk 2 0, StripPtR.mk 3 0,
          StripPtR.mk 2 0, StripPtR.mk 5 0].getD (5 - 1 - i) dfltR).ind) := by
  refine ⟨by decide, by decide, ?_⟩
  intro h
  have := h 0 (by decide)
  simp [List.getD] at this

/-- C2, amended: on a strip of odd length n ≥ 3, HasArea is false iff the two
indices compared in the final loop iteration coincide, i.e.
strip[(n-1)/2 - 1].ind = strip[(n-1)/2 + 1].ind; the earlier comparisons are
overwritten and do not influence the result. -/
theorem c2_hasArea_last_comparison (strip : StripType)
    (hodd : strip.length % 2 = 1) (h3 : 3 ≤ strip.length) :
    (HasArea strip = false ↔
      (strip.getD ((strip.length - 1) / 2 - 1) dfltR).ind =
        (strip.getD ((strip.length - 1) / 2 + 1) dfltR).ind) := by
  have hm : (strip.length - 1) / 2 ≠ 0 := by omega
  have hidx : strip.length - ((strip.length - 1) / 2 - 1) - 1 =
      (strip.length - 1) / 2 + 1 := by omega
  simp only [HasArea]
  rw [if_pos hodd, foldl_range_lastOnly _ _ _ hm, hidx]
  simp

/-- C2, witness for the amended theorem at the strip [1, 2, 3, 2, 5]. -/
theorem c2_hasArea_last_comparison_witness :
    ([StripPtR.mk 1 0, StripPtR.mk 2 0, StripPtR.mk 3 0,
      StripPtR.mk 2 0, StripPtR.mk 5 0].length % 2 = 1) ∧
    (3 ≤ [StripPtR.mk 1 0, StripPtR.mk 2 0, StripPtR.mk 3 0,
      StripPtR.mk 2 0, StripPtR.mk 5 0].length) ∧
    (HasArea [StripPtR.mk 1 0, StripPtR.mk 2 0, StripPtR.mk 3 0,
      StripPtR.mk 2 0, StripPtR.mk 5 0] = false ↔
      (([StripPtR.mk 1 0, StripPtR.mk 2 0, StripPtR.mk 3 0,
        StripPtR.mk 2 0, StripPtR.mk 5 0].getD 1 dfltR).ind =
       ([StripPtR.mk 1 0, StripPtR.mk 2 0, StripPtR.mk 3 0,
        StripPtR.mk 2 0, StripPtR.mk 5 0].getD 3 dfltR).ind)) := by
  refine ⟨by decide, by decide, ?_⟩
  exact c2_hasArea_last_comparison _ (by decide) (by decide)

/-- C7: CleanStrips reports failure (RequestData then aborts with 'There is
no contact.', lines 212-215) if and only if, after removing hole strips and
strips touching dropped points and deleting every contact-curve cell incident
to a dropped point, every cell of the contact curve is deleted. -/
theorem c7_cleanStrips_failure_iff (psA psB : List PStrips) (cells : List LineCell) :
    (CleanStrips psA psB cells).2 = true ↔
      ∀ c ∈ (CleanStrips psA psB cells).1.2.2, c.deleted = true := by
  simp only [CleanStrips, decide_eq_true_eq]
  exact List.countP_eq_length

/-- C8, counterexample to the claim as stated: in the configuration
`cexCells`, every endpoint initially has degree 2, CleanStrips does not
report failure, the cell 0-1 survives cleaning, and yet its endpoint 1 is
incident to only one surviving contact line. -/
theorem c8_degree_cex :
    (∀ c ∈ cexCells, 2 ≤ degree cexCells c.a ∧ 2 ≤ degree cexCells c.b) ∧
    (CleanStrips cexPsA cexPsB cexCells).2 = false ∧
    (LineCell.mk 0 1 false) ∈ (CleanStrips cexPsA cexPsB cexCells).1.2.2 ∧
    degree (CleanStrips cexPsA cexPsB cexCells).1.2.2 1 = 1 := by decide

/-- C8, amended: a contact line surviving CleanStrips has no dropped
endpoint, and both its endpoints have degree at least 2 in the contact-curve
graph BEFORE cleaning (the degree checked at RequestData lines 163-172);
after cleaning the surviving degree can drop to 1, as `c8_degree_cex`
shows. -/
theorem c8_surviving_line_endpoints (psA psB : List PStrips) (cells : List LineCell)
    (hdeg : ∀ c ∈ cells, 2 ≤ degree cells c.a ∧ 2 ≤ degree cells c.b) :
    ∀ c ∈ (CleanStrips psA psB cells).1.2.2, c.deleted = false →
      c ∈ cells ∧ c.a ∉ dropInds psA psB ∧ c.b ∉ dropInds psA psB ∧
      2 ≤ degree cells c.a ∧ 2 ≤ degree cells c.b := by
  intro c hc hdel
  simp only [CleanStrips, List.mem_map] at hc
  obtain ⟨c₀, hc₀, hf⟩ := hc
  by_cases hin : c₀.a ∈ dropInds psA psB ∨ c₀.b ∈ dropInds psA psB
  · rw [if_pos hin] at hf
    rw [← hf] at hdel
    simp at hdel
  · rw [if_neg hin] at hf
    subst hf
    push_neg at hin
    exact ⟨hc₀, hin.1, hin.2, (hdeg c₀ hc₀).1, (hdeg c₀ hc₀).2⟩

/-- C8, witness for the amended theorem at the concrete configuration. -/
theorem c8_surviving_line_endpoints_witness :
    (∀ c ∈ cexCells, 2 ≤ degree cexCells c.a ∧ 2 ≤ degree cexCells c.b) ∧
    ((LineCell.mk 0 1 false) ∈ cexCells ∧
      (0 : ℤ) ∉ dropInds cexPsA cexPsB ∧ (1 : ℤ) ∉ dropInds cexPsA cexPsB ∧
      2 ≤ degree cexCells 0 ∧ 2 ≤ degree cexCells 1) := by
  refine ⟨by decide, ?_⟩
  exact c8_surviving_line_endpoints cexPsA cexPsB cexCells (by decide)
    (LineCell.mk 0 1 false) (by decide) (by decide)

theorem map_getD_range_append {α : Type} (d : α) (l l2 : List α) :
    (List.range l2.length).map (fun i => (l ++ l2).getD (i + l.length) d) = l2 := by
  apply List.ext_getElem
  · simp
  · intro i h1 h2
    simp only [List.getElem_map, List.getElem_range, List.getD_eq_getElem?_getD]
    rw [List.getElem?_append_right (by omega)]
    have hi : i + l.length - l.length = i := by omega
    rw [hi, List.getElem?_eq_getElem h2]
    rfl

/-- C5: for a polygon whose StripPoints are all boundary-captured and whose
snapped cutPt set equals its ring coordinate set (the guard
`cutShortcutCond`), the shortcut fires and emits exactly one new polygon:
the mesh gains one cell whose coordinates are the original ring in order,
built over freshly allocated point ids, the same OrigCellId is appended, the
original cell is marked deleted with its ring untouched, and every other
cell is untouched. -/
theorem c5_cut_shortcut (m : Mesh) (polyInd : ℕ) (p : PStrips)
    (hcond : cutShortcutCond m p = true) (hlt : polyInd < m.cells.length) :
    ∃ m2, cutCellsStep m polyInd p = some m2 ∧
      m2.cells.length = m.cells.length + 1 ∧
      ((m2.cells.getD m.cells.length dfltCell).ids.map (fun id => m2.pts.getD id dfltPt)
        = p.poly.map (fun id => m.pts.getD id dfltPt)) ∧
      (∀ id ∈ (m2.cells.getD m.cells.length dfltCell).ids, m.pts.length ≤ id) ∧
      m2.origCellIds = m.origCellIds ++ [m.origCellIds.getD polyInd 0] ∧
      (m2.cells.getD polyInd dfltCell).deleted = true ∧
      (m2.cells.getD polyInd dfltCell).ids = (m.cells.getD polyInd dfltCell).ids ∧
      (∀ j, j < m.cells.length → j ≠ polyInd →
        m2.cells.getD j dfltCell = m.cells.getD j dfltCell) := by
  refine ⟨cutShortcutApply m polyInd p, by simp [cutCellsStep, hcond], ?_, ?_, ?_, rfl, ?_, ?_, ?_⟩
  · simp [cutShortcutApply]
  · have hnew : ((cutShortcutApply m polyInd p).cells.getD m.cells.length dfltCell)
        = {ids := (List.range (p.poly.map (fun id => m.pts.getD id dfltPt)).length).map
            (fun i => i + m.pts.length)} := by
      simp only [cutShortcutApply, List.getD_eq_getElem?_getD]
      rw [List.getElem?_set_ne (by omega), List.getElem?_append_right (le_refl _)]
      simp
    rw [hnew]
    simp only [cutShortcutApply, List.map_map]
    exact map_getD_range_append dfltPt m.pts (p.poly.map (fun id => m.pts.getD id dfltPt))
  · intro id hid
    have hnew : ((cutShortcutApply m polyInd p).cells.getD m.cells.length dfltCell)
        = {ids := (List.range (p.poly.map (fun id => m.pts.getD id dfltPt)).length).map
            (fun i => i + m.pts.length)} := by
      simp only [cutShortcutApply, List.getD_eq_getElem?_getD]
      rw [List.getElem?_set_ne (by omega), List.getElem?_append_right (le_refl _)]
      simp
    rw [hnew] at hid
    simp only [List.mem_map, List.mem_range] at hid
    obtain ⟨i, _, rfl⟩ := hid
    omega
  · simp only [cutShortcutApply, List.getD_eq_getElem?_getD]
    rw [List.getElem?_set_self (by simp; omega)]
    rfl
  · simp only [cutShortcutApply, List.getD_eq_getElem?_getD]
    rw [List.getElem?_set_self (by simp; omega)]
    rfl
  · intro j hj hne
    simp only [cutShortcutApply, List.getD_eq_getElem?_getD]
    rw [List.getElem?_set_ne (by omega), List.getElem?_append_left hj]

/-- C5, witness: a unit square polygon whose four StripPoints are captured A
with cutPts equal to the four corners. -/
theorem c5_cut_shortcut_witness :
    (cutShortcutCond squareMesh squareBundle = true) ∧
    (0 < squareMesh.cells.length) ∧
    (∃ m2, cutCellsStep squareMesh 0 squareBundle = some m2 ∧
      m2.cells.length = 2 ∧
      ((m2.cells.getD 1 dfltCell).ids.map (fun id => m2.pts.getD id dfltPt)
        = [(0, 0, 0), (1, 0, 0), (1, 1, 0), (0, 1, 0)]) ∧
      (∀ id ∈ (m2.cells.getD 1 dfltCell).ids, 4 ≤ id) ∧
      m2.origCellIds = [7, 7] ∧
      (m2.cells.getD 0 dfltCell).deleted = true) := by
  refine ⟨by decide, by decide, ?_⟩
  obtain ⟨m2, he, h1, h2, h3, h4, h5, -, -⟩ :=
    c5_cut_shortcut squareMesh 0 squareBundle (by decide) (by decide)
  exact ⟨m2, he, h1, by simpa [squareMesh, squareBundle] using h2, h3,
    by simpa [squareMesh] using h4, h5⟩

/-- C6: if any strip of any contacted polygon has both endpoints classified
Branched, CutCells returns true — RequestData (lines 223-228) then aborts
with 'CutCells failed.'. Such a strip is never a hole (its ends are not
capture `Not`), the shortcut cannot swallow its polygon (a Branched point
defeats the all-boundary guard), so the check at lines 1108-1112 fires. -/
theorem c6_both_branched_fails (mf : PStrips → Bool) (m : Mesh) (polys : List PStrips)
    (p : PStrips) (hp : p ∈ polys) (s : StripType) (hs : s ∈ p.strips)
    (h1 : captAt p.pts ((s.headD dfltR).ind) = .Branched)
    (h2 : captAt p.pts ((s.getLastD dfltR).ind) = .Branched) :
    CutCells mf m polys = true := by
  have hsp : ∃ sp, alookup p.pts ((s.headD dfltR).ind) = some sp ∧ sp.capt = .Branched := by
    unfold captAt at h1
    cases hlk : alookup p.pts ((s.headD dfltR).ind) with
    | none => rw [hlk] at h1; simp at h1
    | some sp => refine ⟨sp, rfl, ?_⟩; rw [hlk] at h1; simpa using h1
  obtain ⟨sp, hlk, hcapt⟩ := hsp
  have hmem := alookup_mem hlk
  have hall : p.pts.all (fun q => q.2.capt.isA || q.2.capt.isB) = false := by
    rw [Bool.eq_false_iff]
    intro hall
    rw [List.all_eq_true] at hall
    have := hall _ hmem
    simp only [hcapt] at this
    simp [Capt.isA, Capt.isB] at this
  have hsc : cutShortcutCond m p = false := by
    simp [cutShortcutCond, hall]
  have hany : p.strips.any (fun s =>
      captAt p.pts ((s.headD dfltR).ind) = Capt.Branched &&
      captAt p.pts ((s.getLastD dfltR).ind) = Capt.Branched) = true := by
    rw [List.any_eq_true]
    exact ⟨s, hs, by rw [h1, h2]; simp⟩
  unfold CutCells
  rw [List.any_eq_true]
  refine ⟨p, hp, ?_⟩
  unfold polyFails
  rw [if_neg (by simp [hsc]), if_pos (by simpa using hany)]

/-- C6, witness: a single polygon with one strip whose two endpoints are both
Branched. -/
theorem c6_both_branched_fails_witness :
    bothBranchedBundle ∈ [bothBranchedBundle] ∧
    [{ind := 0}, {ind := 1}] ∈ bothBranchedBundle.strips ∧
    CutCells (fun _ => false) (Mesh.mk [] [] []) [bothBranchedBundle] = true := by
  refine ⟨List.mem_singleton.mpr rfl, List.mem_singleton.mpr rfl, ?_⟩
  exact c6_both_branched_fails (fun _ => false) (Mesh.mk [] [] []) _ _
    (List.mem_singleton.mpr rfl) [{ind := 0}, {ind := 1}]
    (List.mem_singleton.mpr rfl) (by decide) (by decide)

/-- C3: in PolyPair::GetLoc, when the candidate pT is congruent to neither
reference polygon (both IsCongruent calls yield Not), pT is classified
Inside iff the angle beta from pA.r to pT.r about the shared edge exceeds
the angle alpha from pA.r to pB.r. The statement holds for every angle
function, hence in particular for GetAngle of the source. -/
theorem c3_dihedral_angle_rule (getAngle : Vec3 → Vec3 → Vec3 → ℚ) (pp : PolyPair)
    (pT : PolyAtEdge) (mode : OperMode)
    (hA : IsCongruent pp.pA pT = Congr.Not) (hB : IsCongruent pp.pB pT = Congr.Not) :
    ((GetLoc getAngle pp pT mode).2.loc = Loc.Inside ↔
      getAngle pp.pA.r pT.r pp.pA.e > getAngle pp.pA.r pp.pB.r pp.pA.e) := by
  simp only [GetLoc, hA, hB]
  by_cases h : getAngle pp.pA.r pT.r pp.pA.e > getAngle pp.pA.r pp.pB.r pp.pA.e
  · simp [h]
  · simp [h]

/-- C3, witness at a concrete non-congruent configuration, with the dot
product standing in for the angle function. -/
theorem c3_dihedral_angle_rule_witness :
    IsCongruent refPair.pA candT = Congr.Not ∧
    IsCongruent refPair.pB candT = Congr.Not ∧
    ((GetLoc (fun u v _ => dot u v) refPair candT OperMode.Union).2.loc = Loc.Inside ↔
      dot refPair.pA.r candT.r > dot refPair.pA.r refPair.pB.r) := by
  have hA : IsCongruent refPair.pA candT = Congr.Not := by
    simp only [IsCongruent, refPair, candT, dot]
    norm_num [congrEps]
  have hB : IsCongruent refPair.pB candT = Congr.Not := by
    simp only [IsCongruent, refPair, candT, dot]
    norm_num [congrEps]
  exact ⟨hA, hB,
    c3_dihedral_angle_rule (fun u v _ => dot u v) refPair candT OperMode.Union hA hB⟩

/-- C4: the region selection of CombineRegions — UNION keeps regions
observed Outside in A and Outside in B, INTERSECTION keeps Inside/Inside,
DIFFERENCE keeps Outside in A and Inside in B, DIFFERENCE2 keeps Inside in A
and Outside in B; regions never observed at a contact edge (absent from the
locs map and in range) are additionally kept under UNION on both sides,
under DIFFERENCE on side A, and under DIFFERENCE2 on side B. -/
theorem c4_region_selection (locs : List (ℤ × Loc)) (num r : ℤ) :
    (selectedA OperMode.Union locs num r = true ↔
      (alookup locs r = some Loc.Outside ∨
        (alookup locs r = none ∧ 0 ≤ r ∧ r < num))) ∧
    (selectedB OperMode.Union locs num r = true ↔
      (alookup locs r = some Loc.Outside ∨
        (alookup locs r = none ∧ 0 ≤ r ∧ r < num))) ∧
    (selectedA OperMode.Intersection locs num r = true ↔
      alookup locs r = some Loc.Inside) ∧
    (selectedB OperMode.Intersection locs num r = true ↔
      alookup locs r = some Loc.Inside) ∧
    (selectedA OperMode.Difference locs num r = true ↔
      (alookup locs r = some Loc.Outside ∨
        (alookup locs r = none ∧ 0 ≤ r ∧ r < num))) ∧
    (selectedB OperMode.Difference locs num r = true ↔
      alookup locs r = some Loc.Inside) ∧
    (selectedA OperMode.Difference2 locs num r = true ↔
      alookup locs r = some Loc.Inside) ∧
    (selectedB OperMode.Difference2 locs num r = true ↔
      (alookup locs r = some Loc.Outside ∨
        (alookup locs r = none ∧ 0 ≤ r ∧ r < num))) := by
  refine ⟨?_, ?_, ?_, ?_, ?_, ?_, ?_, ?_⟩ <;>
    cases hlk : alookup locs r with
    | none => simp [selectedA, selectedB, comb, hlk]
    | some l => cases l <;> simp [selectedA, selectedB, comb, hlk]

theorem samePair_iff (x y : LineT) : samePair x y = true ↔ upair x = upair y := by
  rcases x with ⟨ix, a, b⟩
  rcases y with ⟨iy, c, d⟩
  simp only [samePair, upair, Bool.or_eq_true, Bool.and_eq_true, decide_eq_true_eq]
  split_ifs <;> simp only [Prod.mk.injEq] <;> omega

theorem samePair_refl (x : LineT) : samePair x x = true := by
  simp [samePair]

theorem samePair_trans {x y z : LineT} (h1 : samePair x y = true)
    (h2 : samePair y z = true) : samePair x z = true := by
  rw [samePair_iff] at h1 h2 ⊢
  exact h1.trans h2

theorem rdGo_mono (rest : List LineT) : ∀ acc, ∀ x ∈ acc, x ∈ rdGo acc rest := by
  induction rest with
  | nil => intro acc x hx; simpa [rdGo] using hx
  | cons l t ih =>
    intro acc x hx
    simp only [rdGo]
    by_cases h : acc.any (fun y => samePair y l) = true
    · rw [if_pos h]; exact ih acc x hx
    · rw [if_neg h]; exact ih _ x (List.mem_append_left _ hx)

theorem rdGo_pairwise (rest : List LineT) :
    ∀ acc, acc.Pairwise (fun x y => samePair x y = false) →
      (rdGo acc rest).Pairwise (fun x y => samePair x y = false) := by
  induction rest with
  | nil => intro acc h; simpa [rdGo] using h
  | cons l t ih =>
    intro acc h
    simp only [rdGo]
    by_cases hg : acc.any (fun y => samePair y l) = true
    · rw [if_pos hg]; exact ih acc h
    · rw [if_neg hg]
      apply ih
      rw [List.pairwise_append]
      refine ⟨h, List.pairwise_singleton _ _, ?_⟩
      intro x hx y hy
      simp only [List.mem_singleton] at hy
      subst hy
      cases hb : samePair x y
      · rfl
      · exact absurd (List.any_eq_true.mpr ⟨x, hx, hb⟩) hg

theorem rdGo_covers (rest : List LineT) :
    ∀ acc, ∀ l ∈ rest, ∃ x ∈ rdGo acc rest, samePair x l = true := by
  induction rest with
  | nil => simp
  | cons hd t ih =>
    intro acc l hl
    simp only [rdGo]
    rcases List.mem_cons.mp hl with rfl | hl2
    · by_cases hg : acc.any (fun y => samePair y l) = true
      · rw [if_pos hg]
        obtain ⟨x, hx, hxl⟩ := List.any_eq_true.mp hg
        exact ⟨x, rdGo_mono t acc x hx, hxl⟩
      · rw [if_neg hg]
        exact ⟨l, rdGo_mono t _ l (List.mem_append_right _ (by simp)), samePair_refl l⟩
    · by_cases hg : acc.any (fun y => samePair y hd) = true
      · rw [if_pos hg]; exact ih acc l hl2
      · rw [if_neg hg]; exact ih _ l hl2

theorem rdGo_first (rest : List LineT) : ∀ acc pre,
    (∀ x ∈ acc, pre.find? (fun y => samePair y x) = some x) →
    (∀ y ∈ pre, ∃ x ∈ acc, samePair x y = true) →
    ∀ x ∈ rdGo acc rest, (pre ++ rest).find? (fun y => samePair y x) = some x := by
  induction rest with
  | nil =>
    intro acc pre h1 _ x hx
    simp only [rdGo] at hx
    simpa using h1 x hx
  | cons l t ih =>
    intro acc pre h1 h2 x hx
    simp only [rdGo] at hx
    have hassoc : pre ++ l :: t = (pre ++ [l]) ++ t := by simp
    rw [hassoc]
    by_cases hg : acc.any (fun y => samePair y l) = true
    · rw [if_pos hg] at hx
      obtain ⟨x₀, hx₀, hx₀l⟩ := List.any_eq_true.mp hg
      refine ih acc (pre ++ [l]) ?_ ?_ x hx
      · intro z hz
        rw [List.find?_append, h1 z hz]
        rfl
      · intro y hy
        rcases List.mem_append.mp hy with hy1 | hy2
        · exact h2 y hy1
        · simp only [List.mem_singleton] at hy2
          subst hy2
          exact ⟨x₀, hx₀, hx₀l⟩
    · rw [if_neg hg] at hx
      have hnone : pre.find? (fun y => samePair y l) = none := by
        rw [List.find?_eq_none]
        intro y hy hpy
        obtain ⟨x₀, hx₀, hx₀y⟩ := h2 y hy
        exact hg (List.any_eq_true.mpr ⟨x₀, hx₀, samePair_trans hx₀y hpy⟩)
      refine ih (acc ++ [l]) (pre ++ [l]) ?_ ?_ x hx
      · intro z hz
        rcases List.mem_append.mp hz with hz1 | hz2
        · rw [List.find?_append, h1 z hz1]
          rfl
        · simp only [List.mem_singleton] at hz2
          subst hz2
          rw [List.find?_append, hnone]
          simp [samePair_refl]
      · intro y hy
        rcases List.mem_append.mp hy with hy1 | hy2
        · obtain ⟨x₀, hx₀, h⟩ := h2 y hy1
          exact ⟨x₀, List.mem_append_left _ hx₀, h⟩
        · simp only [List.mem_singleton] at hy2
          exact ⟨l, List.mem_append_right _ (by simp), by rw [hy2]; exact samePair_refl l⟩

/-- C10: RemoveDuplicates keeps, among all contact lines of a polygon joining
the same two contact-curve points, exactly the first listed line: no two kept
lines join the same pair (so strip assembly never sees two lines with
identical endpoints), every input line's endpoint pair is still represented,
and every kept line is the first input line with its endpoint pair. -/
theorem c10_removeDuplicates_first_kept (lines : List LineT) :
    ((RemoveDuplicates lines).Pairwise (fun x y => samePair x y = false)) ∧
    (∀ l ∈ lines, ∃ x ∈ RemoveDuplicates lines, samePair x l = true) ∧
    (∀ x ∈ RemoveDuplicates lines, lines.find? (fun y => samePair y x) = some x) := by
  refine ⟨rdGo_pairwise lines [] List.Pairwise.nil, rdGo_covers lines [], ?_⟩
  intro x hx
  have h := rdGo_first lines [] [] (by simp) (by simp) x hx
  simpa using h

theorem headD_mem {α : Type} {g : List α} (hg : g ≠ []) (d : α) : g.headD d ∈ g := by
  cases g with
  | nil => exact absurd rfl hg
  | cons a t => simp

theorem getLastD_mem {α : Type} {g : List α} (hg : g ≠ []) (d : α) : g.getLastD d ∈ g := by
  cases g with
  | nil => exact absurd rfl hg
  | cons a t =>
    rw [List.getLastD_cons]
    exact List.getLastD_mem_cons t a

theorem groupFind_spec {g : List IdPair} (hg : g ≠ []) :
    ∀ ls g2 ls2, groupFind g ls = some (g2, ls2) →
      g2 ≠ [] ∧ (∀ x ∈ g, x ∈ g2) ∧
      (∀ l ∈ ls, l ∈ ls2 ∨ (l.1 ∈ g2 ∧ l.2 ∈ g2)) ∧
      ls2.length < ls.length := by
  intro ls
  induction ls with
  | nil => intro g2 ls2 h; simp [groupFind] at h
  | cons l rest ih =>
    intro g2 ls2 h
    simp only [groupFind] at h
    by_cases h1 : l.1 = g.headD dfltPair
    · rw [if_pos h1] at h
      obtain ⟨he1, he2⟩ := Prod.mk.injEq .. ▸ Option.some.injEq .. ▸ h
      refine ⟨by simp [← he1], ?_, ?_, ?_⟩
      · intro x hx; rw [← he1]; exact List.mem_cons_of_mem _ hx
      · intro l2 hl2
        rcases List.mem_cons.mp hl2 with rfl | hmem
        · right
          refine ⟨?_, ?_⟩
          · rw [← he1, h1]; exact List.mem_cons_of_mem _ (headD_mem hg _)
          · rw [← he1]; exact List.mem_cons_self _ _
        · left; rw [← he2]; exact hmem
      · rw [← he2]; simp
    · rw [if_neg h1] at h
      by_cases h2 : l.1 = g.getLastD dfltPair
      · rw [if_pos h2] at h
        obtain ⟨he1, he2⟩ := Prod.mk.injEq .. ▸ Option.some.injEq .. ▸ h
        refine ⟨by rw [← he1]; simp [hg], ?_, ?_, ?_⟩
        · intro x hx; rw [← he1]; exact List.mem_append_left _ hx
        · intro l2 hl2
          rcases List.mem_cons.mp hl2 with rfl | hmem
          · right
            refine ⟨?_, ?_⟩
            · rw [← he1, h2]; exact List.mem_append_left _ (getLastD_mem hg _)
            · rw [← he1]; exact List.mem_append_right _ (by simp)
          · left; rw [← he2]; exact hmem
        · rw [← he2]; simp
      · rw [if_neg h2] at h
        by_cases h3 : l.2 = g.headD dfltPair
        · rw [if_pos h3] at h
          obtain ⟨he1, he2⟩ := Prod.mk.injEq .. ▸ Option.some.injEq .. ▸ h
          refine ⟨by simp [← he1], ?_, ?_, ?_⟩
          · intro x hx; rw [← he1]; exact List.mem_cons_of_mem _ hx
          · intro l2 hl2
            rcases List.mem_cons.mp hl2 with rfl | hmem
            · right
              refine ⟨?_, ?_⟩
              · rw [← he1]; exact List.mem_cons_self _ _
              · rw [← he1, h3]; exact List.mem_cons_of_mem _ (headD_mem hg _)
            · left; rw [← he2]; exact hmem
          · rw [← he2]; simp
        · rw [if_neg h3] at h
          by_cases h4 : l.2 = g.getLastD dfltPair
          · rw [if_pos h4] at h
            obtain ⟨he1, he2⟩ := Prod.mk.injEq .. ▸ Option.some.injEq .. ▸ h
            refine ⟨by rw [← he1]; simp [hg], ?_, ?_, ?_⟩
            · intro x hx; rw [← he1]; exact List.mem_append_left _ hx
            · intro l2 hl2
              rcases List.mem_cons.mp hl2 with rfl | hmem
              · right
                refine ⟨?_, ?_⟩
                · rw [← he1]; exact List.mem_append_right _ (by simp)
                · rw [← he1, h4]; exact List.mem_append_left _ (getLastD_mem hg _)
              · left; rw [← he2]; exact hmem
            · rw [← he2]; simp
          · rw [if_neg h4] at h
            rw [Option.map_eq_some'] at h
            obtain ⟨q, hq, hq2⟩ := h
            obtain ⟨he1, he2⟩ := Prod.mk.injEq .. ▸ hq2
            obtain ⟨ha, hb, hc, hd⟩ := ih q.1 q.2 (by rw [← hq])
            refine ⟨by rw [← he1]; exact ha, ?_, ?_, ?_⟩
            · intro x hx; rw [← he1]; exact hb x hx
            · intro l2 hl2
              rcases List.mem_cons.mp hl2 with rfl | hmem
              · left; rw [← he2]; exact List.mem_cons_self _ _
              · rcases hc l2 hmem with hin | hpair
                · left; rw [← he2]; exact List.mem_cons_of_mem _ hin
                · right; rw [← he1]; exact hpair
            · rw [← he2]; simpa using hd

theorem groupGrow_spec : ∀ (fuel : ℕ) (g : List IdPair) (ls : List (IdPair × IdPair)),
    g ≠ [] →
    (groupGrow fuel g ls).1 ≠ [] ∧
    (∀ x ∈ g, x ∈ (groupGrow fuel g ls).1) ∧
    (∀ l ∈ ls, l ∈ (groupGrow fuel g ls).2 ∨
      (l.1 ∈ (groupGrow fuel g ls).1 ∧ l.2 ∈ (groupGrow fuel g ls).1)) ∧
    (groupGrow fuel g ls).2.length ≤ ls.length := by
  intro fuel
  induction fuel with
  | zero =>
    intro g ls hg
    exact ⟨hg, fun x hx => hx, fun l hl => Or.inl hl, le_refl _⟩
  | succ f ih =>
    intro g ls hg
    simp only [groupGrow]
    cases hf : groupFind g ls with
    | none =>
      exact ⟨hg, fun x hx => hx, fun l hl => Or.inl hl, le_refl _⟩
    | some q =>
      obtain ⟨g2, ls2⟩ := q
      dsimp only
      obtain ⟨ha, hb, hc, hd⟩ := groupFind_spec hg ls g2 ls2 (by rw [hf])
      obtain ⟨ia, ib, ic, id2⟩ := ih g2 ls2 ha
      refine ⟨ia, ?_, ?_, ?_⟩
      · intro x hx
        exact ib x (hb x hx)
      · intro l hl
        rcases hc l hl with hin | hpair
        · rcases ic l hin with hin2 | hpair2
          · exact Or.inl hin2
          · exact Or.inr hpair2
        · exact Or.inr ⟨ib _ hpair.1, ib _ hpair.2⟩
      · omega

theorem buildGroups_spec : ∀ (fuel : ℕ) (ls : List (IdPair × IdPair)),
    ls.length ≤ fuel →
    ∀ l ∈ ls, ∃ g ∈ buildGroups fuel ls, l.1 ∈ g ∧ l.2 ∈ g := by
  intro fuel
  induction fuel with
  | zero =>
    intro ls hlen l hl
    have : ls = [] := List.length_eq_zero.mp (Nat.le_zero.mp hlen)
    subst this
    cases hl
  | succ f ih =>
    intro ls hlen l hl
    cases ls with
    | nil => cases hl
    | cons hd t =>
      simp only [buildGroups]
      obtain ⟨hne, hmono, hdisj, hlen2⟩ :=
        groupGrow_spec t.length [hd.1, hd.2] t (by simp)
      rcases List.mem_cons.mp hl with rfl | hl2
      · exact ⟨_, List.mem_cons_self _ _, hmono _ (by simp), hmono _ (by simp)⟩
      · rcases hdisj l hl2 with h1 | h2
        · have hfl : (groupGrow t.length [hd.1, hd.2] t).2.length ≤ f := by
            simp only [List.length_cons] at hlen
            omega
          obtain ⟨g, hg, hm⟩ := ih _ hfl l h1
          exact ⟨g, List.mem_cons_of_mem _ hg, hm⟩
        · exact ⟨_, List.mem_cons_self _ _, h2⟩

theorem foldl_append_mem {α β : Type} (f : α → List β) (gs : List α) :
    ∀ (acc : List β) (x : β),
      (x ∈ gs.foldl (fun a g => a ++ f g) acc ↔ x ∈ acc ∨ ∃ g ∈ gs, x ∈ f g) := by
  induction gs with
  | nil => intro acc x; simp
  | cons g t ih =>
    intro acc x
    rw [List.foldl_cons, ih]
    simp only [List.mem_append, List.mem_cons]
    constructor
    · rintro ((h | h) | ⟨g2, hg2, h⟩)
      · exact Or.inl h
      · exact Or.inr ⟨g, Or.inl rfl, h⟩
      · exact Or.inr ⟨g2, Or.inr hg2, h⟩
    · rintro (h | ⟨g2, (rfl | hg2), h⟩)
      · exact Or.inl (Or.inl h)
      · exact Or.inl (Or.inr h)
      · exact Or.inr ⟨g2, hg2, h⟩

/-- C9, counterexample: a neighbour coordinate shared by three (polygon,
point) pairs yields no link at all (`if (p.size() == 2)` at line 2367), so
MergePoints emits no groups and rewrites nothing — the claim's "regardless of
how many pairs share a coordinate" fails. -/
theorem c9_merge_three_pairs_cex :
    ((triplePairs.headD ((0, 0, 0), [])).2 = [(1, 10), (2, 11), (3, 12)]) ∧
    buildPairLinks triplePairs = [] ∧
    MergePointsGroups triplePairs = [] ∧
    MergePointsRewrites triplePairs = [] := by
  refine ⟨rfl, rfl, rfl, rfl⟩

/-- C9, amended: only a neighbour coordinate shared by exactly two
(polygon, point) pairs creates a link; for every such link there is an
emitted group containing both its pairs, and the rewrites replace every
group member but the representative (the group's front) by the
representative's point id, so linked pairs collapse to one representative.
Coordinates shared by three or more pairs create no link and are ignored. -/
theorem c9_merge_links_collapse (pairs : List (Point3d × List IdPair)) :
    (∀ link ∈ buildPairLinks pairs, ∃ g ∈ MergePointsGroups pairs,
        link.1 ∈ g ∧ link.2 ∈ g) ∧
    (∀ g ∈ MergePointsGroups pairs, ∀ p ∈ g.drop 1,
        (p, (g.headD dfltPair).2) ∈ MergePointsRewrites pairs) := by
  constructor
  · intro link hl
    exact buildGroups_spec ((buildPairLinks pairs).length + 1) (buildPairLinks pairs)
      (by omega) link hl
  · intro g hg p hp
    unfold MergePointsRewrites
    rw [foldl_append_mem]
    exact Or.inr ⟨g, hg, List.mem_map.mpr ⟨p, hp, rfl⟩⟩

end CombineModels
